import Mathlib

/- =====================================================================
   Shallow embedding of the SkillNavigator adaptive match-and-apply core:
   the job scoring agent (backend/agents/job_scoring_agent.py), the
   auto-apply agent (backend/agents/autoapply_agent.py), the supervisor
   adaptive learner (backend/agents/supervisor_agent.py) and the tracker
   status state machine (backend/agents/tracker_agent.py).

   Python floats are modelled as rationals, fallible calls as Except,
   and the external embedding model / regex engine as explicit function
   parameters (the similarity model and `re.findall` live outside the
   decision logic under analysis).
   ===================================================================== -/

/-- Python's `needle in hay` substring membership test, on char lists. -/
def isSubList (needle : List Char) : List Char → Bool
  | [] => needle.isEmpty
  | c :: rest => needle.isPrefixOf (c :: rest) || isSubList needle rest

/-- `containsSub hay needle` models Python's `needle in hay` for strings. -/
def containsSub (hay needle : String) : Bool :=
  isSubList needle.toList hay.toList

/-- Python's `str.lower()`, written over the char list so that proofs
can compute with it. -/
def pyLower (s : String) : String :=
  String.mk (s.toList.map Char.toLower)

/-- Python's `str.strip()`: drop leading and trailing whitespace. -/
def pyStrip (s : String) : String :=
  String.mk (((s.toList.dropWhile Char.isWhitespace).reverse.dropWhile
    Char.isWhitespace).reverse)

/-- Python's `str.replace(c, "")` for a single character: delete every
occurrence of that character. -/
def removeChar (c : Char) (s : String) : String :=
  String.mk (s.toList.filter (fun x => x ≠ c))

/- ------------------------------------------------------------------
   job_scoring_agent.py
   ------------------------------------------------------------------ -/

/-- `ScoringWeights` dataclass: configurable weights for the three
sections, defaulting to skills 0.7, experience 0.2, education 0.1. -/
structure ScoringWeights where
  skills : ℚ := 7/10
  experience : ℚ := 2/10
  education : ℚ := 1/10
deriving DecidableEq, Repr

/-- `ScoringWeights.__post_init__`: if the three weights are more than
0.01 away from summing to 1.0, divide each by the total. -/
def ScoringWeights.postInit (w : ScoringWeights) : ScoringWeights :=
  let total := w.skills + w.experience + w.education
  if |total - 1| > 1/100 then
    ⟨w.skills / total, w.experience / total, w.education / total⟩
  else w

/-- The three extracted text sections compared between resume and job. -/
structure Sections where
  skills : String
  experience : String
  education : String
deriving DecidableEq, Repr

/-- The three per-section scores (already scaled to 0-100). -/
structure SectionScores where
  skills : ℚ
  experience : ℚ
  education : ℚ
deriving DecidableEq, Repr

/-- Result of `score_candidate` (the `metadata` dict is not modelled). -/
structure ScoringResult where
  total_score : ℚ
  classification : String
  section_scores : SectionScores
  explanation : String
deriving DecidableEq, Repr

/-- Job posting input to `_extract_job_sections`: the dict may carry a
`description` key, else a `summary` key (the "whole input is a str" arm
is not reachable from `score_candidate` with a dict input). -/
structure JobData where
  description : Option String := none
  summary : Option String := none
deriving DecidableEq, Repr

/-- The free text the job sections are extracted from. -/
def jobTextOf (job : JobData) : String :=
  match job.description with
  | some d => d
  | none =>
    match job.summary with
    | some s => s
    | none => ""

/-- The skills keyword list scanned over the job text
(`_extract_skills_from_job`). -/
def skillsKeywords : List String :=
  ["python", "javascript", "js", "java", "c++", "c#", "php", "ruby", "go", "rust", "swift",
   "typescript", "ts", "html", "css", "sql", "r", "scala", "kotlin", "dart",
   "react", "reactjs", "react.js", "angular", "angularjs", "vue", "vuejs", "vue.js",
   "node", "nodejs", "node.js", "django", "flask", "spring", "laravel", "express",
   "fastapi", "rails", "asp.net", "jquery", "bootstrap", "tailwind",
   "mysql", "postgresql", "postgres", "mongodb", "redis", "sqlite", "oracle",
   "dynamodb", "elasticsearch", "cassandra", "neo4j", "database",
   "aws", "azure", "gcp", "google cloud", "docker", "kubernetes", "k8s",
   "jenkins", "git", "github", "gitlab", "ci/cd", "terraform", "ansible",
   "linux", "ubuntu", "containerization", "microservices",
   "machine learning", "ml", "deep learning", "ai", "tensorflow", "pytorch",
   "pandas", "numpy", "scikit-learn", "jupyter", "data analysis", "statistics",
   "data science", "analytics", "big data",
   "rest api", "restful", "graphql", "api development", "web development",
   "frontend", "backend", "full stack", "fullstack", "responsive design",
   "agile", "scrum", "testing", "unit testing", "integration testing",
   "tdd", "selenium", "jest", "cypress", "debugging"]

/-- The regex patterns used for dedicated skills sections; they are data
handed to the regex engine (modelled as the `findall` parameter). -/
def skillsPatterns : List String :=
  ["(?:skills?|technologies?|requirements?|qualifications?)[:\\-]\\s*(.+?)(?:\\n\\n|\\n[A-Z]|$)",
   "(?:must have|required)[:\\-]?\\s*(.+?)(?:\\n\\n|\\n[A-Z]|$)",
   "(?:experience (?:with|in))[:\\-]?\\s*(.+?)(?:\\n\\n|\\n[A-Z]|$)"]

/-- Regex patterns of `_extract_experience_from_job`. -/
def expPatterns : List String :=
  ["(\\d+\\+?\\s*years?\\s*(?:of\\s*)?experience)",
   "(experience\\s+(?:in|with)[^.]+)",
   "(responsibilities?[:\\-]\\s*[^.]+)",
   "(you\\s+will[^.]+)"]

/-- Regex patterns of `_extract_education_from_job`. -/
def eduPatterns : List String :=
  ["(bachelor\\\x27?s?\\s+(?:degree)?[^.]*)",
   "(master\\\x27?s?\\s+(?:degree)?[^.]*)",
   "(phd|doctorate[^.]*)",
   "(degree\\s+in[^.]+)",
   "(education[:\\-][^.]+)"]

/-- `_extract_skills_from_job`: keyword hits over the lowercased text,
followed by the stripped regex matches.  `findall pat text` stands for
`re.findall(pat, text, ...)`. -/
def extractSkillsFromJob (findall : String → String → List String) (jobText : String) : String :=
  let jobLower := pyLower jobText
  let foundSkills := skillsKeywords.filter (fun s => containsSub jobLower s)
  let patternHits := (skillsPatterns.map (fun p => (findall p jobText).map pyStrip)).flatten
  String.intercalate " " (foundSkills ++ patternHits)

/-- `_extract_experience_from_job`: the concatenated regex matches. -/
def extractExperienceFromJob (findall : String → String → List String) (jobText : String) : String :=
  String.intercalate " " ((expPatterns.map (fun p => findall p jobText)).flatten)

/-- `_extract_education_from_job`: the concatenated regex matches. -/
def extractEducationFromJob (findall : String → String → List String) (jobText : String) : String :=
  String.intercalate " " ((eduPatterns.map (fun p => findall p jobText)).flatten)

/-- `_extract_job_sections`. -/
def extractJobSections (findall : String → String → List String) (job : JobData) : Sections :=
  let t := jobTextOf job
  ⟨extractSkillsFromJob findall t,
   extractExperienceFromJob findall t,
   extractEducationFromJob findall t⟩

/-- The curated important-keyword set of `_compute_keyword_match_boost`. -/
def importantKeywords : List String :=
  ["python", "javascript", "java", "c++", "c#", "php", "ruby", "go", "rust", "swift",
   "typescript", "html", "css", "sql", "r", "scala", "kotlin", "dart",
   "react", "angular", "vue", "django", "flask", "spring", "laravel", "rails",
   "express", "fastapi", "nodejs", "node.js", "next.js", "nuxt",
   "postgresql", "mysql", "mongodb", "redis", "elasticsearch", "cassandra",
   "aws", "azure", "gcp", "docker", "kubernetes", "jenkins", "github", "gitlab",
   "git", "linux", "unix", "bash", "powershell", "terraform", "ansible"]

/-- Text normalisation step of `_compute_keyword_match_boost`:
lowercase, then delete periods, commas and hyphens. -/
def normalizeBoostText (s : String) : String :=
  removeChar (Char.ofNat 0x2d) (removeChar (Char.ofNat 0x2c) (removeChar (Char.ofNat 0x2e) (pyLower s)))

/-- Python's `str.split()` with no argument: split on whitespace,
dropping empty pieces. -/
def splitWords (s : String) : List String :=
  (s.split Char.isWhitespace).filter (fun w => w ≠ "")

/-- `_compute_keyword_match_boost`: 0.05 per important keyword present
in both word sets, capped at 0.2. -/
def computeKeywordMatchBoost (s1 s2 : String) : ℚ :=
  let words1 := splitWords (normalizeBoostText s1)
  let words2 := splitWords (normalizeBoostText s2)
  let matched := importantKeywords.filter (fun k => words1.contains k && words2.contains k)
  min (2/10) ((matched.length : ℚ) * (5/100))

/-- `_compute_section_similarity` (the deployed Sentence-BERT branch):
empty section on either side gives 0; an internal similarity error is
caught and gives 0; otherwise the non-negative part of the cosine
similarity (supplied by the external model `baseSim`) plus the keyword
boost, capped at 1. -/
def computeSectionSimilarity (baseSim : String → String → Except String ℚ)
    (section1 section2 : String) : ℚ :=
  if pyStrip section1 = "" || pyStrip section2 = "" then 0
  else
    match baseSim section1 section2 with
    | .error _ => 0
    | .ok cos =>
      let base := max 0 cos
      min 1 (base + computeKeywordMatchBoost section1 section2)

/-- The score-normalisation boost of `score_candidate` (lines 155-166):
35% of remaining headroom at or above 70, 25% at or above 55, 8% below,
then capped at 100. -/
def calibrate (weightedScore : ℚ) : ℚ :=
  let normalized :=
    if 70 ≤ weightedScore then weightedScore + (100 - weightedScore) * (35/100)
    else if 55 ≤ weightedScore then weightedScore + (100 - weightedScore) * (25/100)
    else weightedScore + (100 - weightedScore) * (8/100)
  min 100 normalized

/-- `_classify_score`. -/
def classifyScore (score : ℚ) : String :=
  if 80 ≤ score then "Excellent Fit"
  else if 65 ≤ score then "Good Fit"
  else if 40 ≤ score then "Fair Fit"
  else "Poor Fit"

/-- Rendering of `f"{score:.1f}"` for the non-negative scores that occur
here (one fractional digit, nearest-int rounding of `10*score`). -/
def fmt1 (q : ℚ) : String :=
  let n := (round (10 * q) : ℤ).toNat
  toString (n / 10) ++ "." ++ toString (n % 10)

/-- One line of `_generate_explanation` for a named section. -/
def sectionLine (name : String) (score : ℚ) : String :=
  if 80 ≤ score then "Strong " ++ name ++ " alignment (" ++ fmt1 score ++ "%)"
  else if 60 ≤ score then "Good " ++ name ++ " match (" ++ fmt1 score ++ "%)"
  else if 30 ≤ score then "Moderate " ++ name ++ " alignment (" ++ fmt1 score ++ "%)"
  else "Limited " ++ name ++ " match (" ++ fmt1 score ++ "%)"

/-- `_generate_explanation` over the insertion-ordered section dict. -/
def generateExplanation (ss : SectionScores) (classification : String) : String :=
  "Overall classification: " ++ classification ++ ". " ++
    String.intercalate ". "
      [sectionLine "skills" ss.skills,
       sectionLine "experience" ss.experience,
       sectionLine "education" ss.education] ++ "."

/-- Python's `round(x, 2)` on the final score. -/
def round2 (q : ℚ) : ℚ := ((round (100 * q) : ℤ) : ℚ) / 100

/-- The `try:` body of `score_candidate`: section extraction, per-section
similarity scaled to 0-100, weighted sum, calibration, classification and
explanation.  The resume-side sections arrive as the already-extracted
text of `_extract_resume_sections`. -/
def scoreCandidateCore (baseSim : String → String → Except String ℚ)
    (findall : String → String → List String)
    (w : ScoringWeights) (resumeSections : Sections) (job : JobData) : ScoringResult :=
  let js := extractJobSections findall job
  let ss : SectionScores :=
    ⟨computeSectionSimilarity baseSim resumeSections.skills js.skills * 100,
     computeSectionSimilarity baseSim resumeSections.experience js.experience * 100,
     computeSectionSimilarity baseSim resumeSections.education js.education * 100⟩
  let weightedScore := w.skills * ss.skills + w.experience * ss.experience + w.education * ss.education
  let totalScore := calibrate weightedScore
  let classification := classifyScore totalScore
  ⟨round2 totalScore, classification, ss, generateExplanation ss classification⟩

/-- The `except Exception` arm of `score_candidate`: zero score,
classification "Error", the error message embedded in the explanation. -/
def errorScoringResult (e : String) : ScoringResult :=
  ⟨0, "Error", ⟨0, 0, 0⟩, "Error during scoring: " ++ e⟩

/-- `score_candidate` as the try/except wrapper: the body either runs to
a result or raises, and a raise is converted into the error result. -/
def scoreCandidate (body : Except String ScoringResult) : ScoringResult :=
  match body with
  | .ok r => r
  | .error e => errorScoringResult e

/-- An error-free run of `score_candidate`. -/
def scoreCandidateOk (baseSim : String → String → Except String ℚ)
    (findall : String → String → List String)
    (w : ScoringWeights) (resumeSections : Sections) (job : JobData) : ScoringResult :=
  scoreCandidate (Except.ok (scoreCandidateCore baseSim findall w resumeSections job))

/- ------------------------------------------------------------------
   supervisor_agent.py - adaptive learning state
   ------------------------------------------------------------------ -/

/-- The four scoring components tracked in
`learning_data['scoring_weights']`. -/
inductive Component
  | skill_match
  | experience_match
  | salary_match
  | company_quality
deriving DecidableEq, Repr

/-- Initial `learning_data['scoring_weights']`. -/
def initialScoringWeights : Component → ℚ
  | .skill_match => 35/100
  | .experience_match => 25/100
  | .salary_match => 20/100
  | .company_quality => 20/100

/-- Per-component outcome aggregate from `_analyze_scoring_components`:
number of high-score samples and the conditional success rate. -/
structure ComponentData where
  high_total : ℕ
  success_rate : ℚ
deriving DecidableEq, Repr

/-- One component's step of `_calculate_weight_adjustments`: skip with
fewer than 5 high-score samples; success rate above 0.6 multiplies the
weight by 1.1 capped at 0.4; below 0.3 multiplies by 0.9 floored at 0.1;
a change of absolute size at most 0.02 is dropped. -/
def calculateWeightAdjustment (currentWeight : ℚ) (d : ComponentData) : Option ℚ :=
  if d.high_total < 5 then none
  else if d.success_rate > 3/5 then
    let newWeight := min (4/10) (currentWeight * (11/10))
    if |newWeight - currentWeight| > 2/100 then some newWeight else none
  else if d.success_rate < 3/10 then
    let newWeight := max (1/10) (currentWeight * (9/10))
    if |newWeight - currentWeight| > 2/100 then some newWeight else none
  else none

/-- `_calculate_weight_adjustments` over the component map. -/
def calculateWeightAdjustments (weights : Component → ℚ) (analysis : Component → ComponentData) :
    Component → Option ℚ :=
  fun c => calculateWeightAdjustment (weights c) (analysis c)

/-- `_apply_scoring_adjustments`: each adjusted component's weight is
overwritten with the adjusted value; nothing else changes. -/
def applyScoringAdjustments (weights : Component → ℚ) (adjustments : Component → Option ℚ) :
    Component → ℚ :=
  fun c => (adjustments c).getD (weights c)

/-- Outcome counts of `analyze_user_outcomes` for one user window. -/
structure OutcomeCounts where
  total : ℕ
  interviews : ℕ
  offers : ℕ
  rejections : ℕ
deriving DecidableEq, Repr

/-- `adaptive_threshold_tuning`'s success rate:
`(interviews + offers) / max(total_apps, 1)`. -/
def thresholdSuccessRate (o : OutcomeCounts) : ℚ :=
  ((o.interviews : ℚ) + (o.offers : ℚ)) / max (o.total : ℚ) 1

/-- `adaptive_threshold_tuning`'s threshold update: step down when under
5 applications, step up when over 20, step up 0.1 on success rate below
0.1, step down on success rate above 0.4, each clamped to [0.5, 0.9];
the change is applied only when it moves the threshold by more
than 0.02.  The minimum-delta comparison is exact here while the program
compares IEEE doubles; the two can disagree only when the change sits
exactly at the 0.02 boundary, so every concrete input used in the
theorems below keeps the change strictly away from that boundary. -/
def tuneThreshold (currentThreshold : ℚ) (o : OutcomeCounts) : ℚ :=
  let successRate := thresholdSuccessRate o
  let newThreshold :=
    if o.total < 5 then max (1/2) (currentThreshold - 1/20)
    else if o.total > 20 then min (9/10) (currentThreshold + 1/20)
    else if successRate < 1/10 then min (9/10) (currentThreshold + 1/10)
    else if successRate > 2/5 then max (1/2) (currentThreshold - 1/20)
    else currentThreshold
  if |newThreshold - currentThreshold| > 1/50 then newThreshold else currentThreshold

/-- The low-interview-rate insight string of `_generate_user_insights`. -/
def lowInterviewRateInsight : String :=
  "Your interview rate is low. Consider improving your application materials or targeting more suitable roles."

/-- The high-interview-rate insight string of `_generate_user_insights`. -/
def highInterviewRateInsight : String :=
  "Great interview rate! You\x27re targeting the right types of positions."

/-- The poorly-converting skill-match insight of `_generate_user_insights`. -/
def skillMatchInsight : String :=
  "Applications with high skill matches aren\x27t converting well. Consider upskilling in key areas or better showcasing your abilities."

/-- The poorly-converting salary-match insight of `_generate_user_insights`. -/
def salaryMatchInsight : String :=
  "High-salary applications aren\x27t successful. Consider being more realistic with salary expectations or improving your value proposition."

/-- The interview-rate part of `_generate_user_insights`. -/
def interviewRateInsights (o : OutcomeCounts) : List String :=
  if o.total > 0 then
    let interviewRate := (o.interviews : ℚ) / (o.total : ℚ)
    if interviewRate < 1/10 then [lowInterviewRateInsight]
    else if interviewRate > 3/10 then [highInterviewRateInsight]
    else []
  else []

/-- The component-specific part of `_generate_user_insights` for one
component (only skill and salary matches produce messages). -/
def componentInsight (c : Component) (d : ComponentData) : List String :=
  if 5 ≤ d.high_total then
    if d.success_rate < 1/5 then
      match c with
      | .skill_match => [skillMatchInsight]
      | .salary_match => [salaryMatchInsight]
      | _ => []
    else []
  else []

/-- `_generate_user_insights`, iterating the component dict in
insertion order. -/
def generateUserInsights (o : OutcomeCounts) (analysis : Component → ComponentData) : List String :=
  interviewRateInsights o ++
    ([Component.skill_match, Component.experience_match,
      Component.salary_match, Component.company_quality].map
      (fun c => componentInsight c (analysis c))).flatten

/- ------------------------------------------------------------------
   tracker_agent.py - status state machine
   ------------------------------------------------------------------ -/

/-- `self.status_transitions` of `TrackerAgent.__init__`, as a partial
map from status name to allowed successor statuses. -/
def statusTransitions : String → Option (List String)
  | "applied" => some ["interview", "rejected", "withdrawn"]
  | "interview" => some ["accepted", "rejected", "second_interview"]
  | "second_interview" => some ["accepted", "rejected", "final_interview"]
  | "final_interview" => some ["accepted", "rejected"]
  | "accepted" => some ["offer_accepted", "offer_declined"]
  | "rejected" => some []
  | "withdrawn" => some []
  | "offer_accepted" => some []
  | "offer_declined" => some []
  | _ => none

/-- `_is_valid_status_transition`: any transition from an unknown status
is allowed; otherwise the new status must be in the table row. -/
def isValidStatusTransition (currentStatus newStatus : String) : Bool :=
  match statusTransitions currentStatus with
  | none => true
  | some allowed => allowed.contains newStatus

/-- The observable behaviour of `update_application_status` on a found
application: the update is always performed (first component), and a
non-standard-transition warning is logged exactly when the transition is
invalid (second component). -/
def updateApplicationStatus (currentStatus newStatus : String) : Bool × Bool :=
  (true, !isValidStatusTransition currentStatus newStatus)

/- ------------------------------------------------------------------
   autoapply_agent.py - method selection, retry/fallback, daily cap
   ------------------------------------------------------------------ -/

/-- The channel names appearing in `method_stats` /
`application_handlers`, plus the handler-less `manual` channel. -/
inductive Method
  | linkedin
  | indeed
  | internshala
  | email
  | form
  | http_form
  | manual
deriving DecidableEq, Repr

/-- Membership in `self.application_handlers` (every channel except
`manual` has a handler). -/
def hasHandler : Method → Bool
  | .manual => false
  | _ => true

/-- `self.fallback_strategies`. -/
def fallbackStrategies : List Method := [.http_form, .email, .manual]

/-- A job row as consumed by the auto-apply agent (`getattr` defaults:
source "unknown", apply_url ""). -/
structure AJob where
  source : String := "unknown"
  apply_url : String := ""
deriving DecidableEq, Repr

/-- `_get_method_success_rate`: optimistic 1.0 for untested methods,
else successes / attempts.  `stats` maps a channel to its
(attempts, successes) pair. -/
def methodSuccessRate (stats : Method → ℕ × ℕ) (m : Method) : ℚ :=
  if (stats m).1 = 0 then 1 else ((stats m).2 : ℚ) / ((stats m).1 : ℚ)

/-- The platform substrings checked in the HTTP-session branch of
`_determine_application_method`. -/
def httpPlatforms : List String := ["remoteok", "arbeitnow", "himalayas"]

/-- Whether the apply URL mentions one of the optimised platforms. -/
def platformInUrl (url : String) : Bool :=
  httpPlatforms.any (fun p => containsSub (pyLower url) p)

/-- The source-named browser method, when the job source is one of the
platform channels. -/
def sourceMethod (source : String) : Option Method :=
  if source = "linkedin" then some .linkedin
  else if source = "indeed" then some .indeed
  else if source = "internshala" then some .internshala
  else none

/-- Python's stable `sort(key=rate, reverse=True)` followed by `[0]`:
the first list element attaining the maximal rate. -/
def bestBy : List (Method × ℚ) → Option (Method × ℚ)
  | [] => none
  | x :: xs => some (xs.foldl (fun a y => if y.2 > a.2 then y else a) x)

/-- The tail of `_determine_application_method`: the best available
method, or `manual` when no method is available. -/
def pickBest (l : List (Method × ℚ)) : Method :=
  match bestBy l with
  | some best => best.1
  | none => Method.manual

/-- HTTP-session branch of `_determine_application_method`: email for a
mail-shaped locator, `http_form` for the optimised platforms, and
`http_form` as the unconditional default when nothing else applies. -/
def httpCandidates (stats : Method → ℕ × ℕ) (job : AJob) : List (Method × ℚ) :=
  let l1 := if containsSub job.apply_url "mailto:" then
      [(Method.email, methodSuccessRate stats .email)] else []
  let l2 := if platformInUrl job.apply_url then
      [(Method.http_form, methodSuccessRate stats .http_form)] else []
  let l := l1 ++ l2
  if l.isEmpty then [(Method.http_form, methodSuccessRate stats .http_form)] else l

/-- Browser branch of `_determine_application_method`, source part: the
source-named platform channel when its success rate is above the 0.3
floor. -/
def browserSourceCandidates (stats : Method → ℕ × ℕ) (job : AJob) : List (Method × ℚ) :=
  match sourceMethod job.source with
  | some m => if methodSuccessRate stats m > 3/10 then [(m, methodSuccessRate stats m)] else []
  | none => []

/-- Browser branch of `_determine_application_method`, locator part:
email for a mail-shaped locator, else `form` when any locator exists. -/
def browserUrlCandidates (stats : Method → ℕ × ℕ) (job : AJob) : List (Method × ℚ) :=
  if containsSub job.apply_url "mailto:" then
    [(Method.email, methodSuccessRate stats .email)]
  else if job.apply_url ≠ "" then [(Method.form, methodSuccessRate stats .form)]
  else []

/-- `_determine_application_method`.  `httpSession` is true when
`self.browser == "http_session"`. -/
def determineApplicationMethod (httpSession : Bool) (stats : Method → ℕ × ℕ) (job : AJob) : Method :=
  let availableMethods : List (Method × ℚ) :=
    if httpSession then httpCandidates stats job
    else browserSourceCandidates stats job ++ browserUrlCandidates stats job
  pickBest availableMethods

/-- The method-name substring matched against the lowercased apply URL
by `_is_method_applicable` for the platform channels. -/
def methodName : Method → String
  | .linkedin => "linkedin"
  | .indeed => "indeed"
  | .internshala => "internshala"
  | .email => "email"
  | .form => "form"
  | .http_form => "http_form"
  | .manual => "manual"

/-- `_is_method_applicable`. -/
def isMethodApplicable (httpSession : Bool) (job : AJob) (m : Method) : Bool :=
  match m with
  | .email => containsSub job.apply_url "mailto:"
  | .http_form => job.apply_url ≠ "" && !containsSub job.apply_url "mailto:"
  | .linkedin | .indeed | .internshala =>
    job.source = methodName m || containsSub (pyLower job.apply_url) (methodName m)
  | .form => job.apply_url ≠ "" && !httpSession
  | .manual => true

/-- The `methods_to_try` plan built at the top of `_apply_to_job`:
the primary method, then each applicable fallback strategy not already
present. -/
def buildMethodsToTry (httpSession : Bool) (stats : Method → ℕ × ℕ) (job : AJob) : List Method :=
  let primary := determineApplicationMethod httpSession stats job
  fallbackStrategies.foldl
    (fun acc fb =>
      if fb ≠ primary && !acc.contains fb && isMethodApplicable httpSession job fb
      then acc ++ [fb] else acc)
    [primary]

/-- `attempts += 1` on one channel's MethodStats. -/
def bumpAttempt (m : Method) (stats : Method → ℕ × ℕ) : Method → ℕ × ℕ :=
  fun x => if x = m then ((stats m).1 + 1, (stats m).2) else stats x

/-- `successes += 1` on one channel's MethodStats. -/
def bumpSuccess (m : Method) (stats : Method → ℕ × ℕ) : Method → ℕ × ℕ :=
  fun x => if x = m then ((stats m).1, (stats m).2 + 1) else stats x

/-- The retry loop `for attempt in range(self.max_retries)` for one
channel.  `f i` is try number `i`: `none` is an explicit success and
`some e` a failed try (a falsy result or a raised exception) with error
detail `e`, which overwrites `last_error`.  Returns the index of the
first successful try (if any) and the final `last_error`. -/
def runTries (f : ℕ → Option String) (lastErr : Option String) :
    ℕ → ℕ → Option ℕ × Option String
  | _, 0 => (none, lastErr)
  | i, fuel + 1 =>
    match f i with
    | none => (some i, lastErr)
    | some e => runTries f (some e) (i + 1) fuel

/-- The channel loop of `_apply_to_job`: channels without a handler are
skipped; entering a channel increments its attempt counter once; a
successful try increments its success counter and stops everything;
otherwise the loop falls through to the next channel carrying
`last_error` along. -/
def runPlan (outcome : Method → ℕ → Option String) (maxRetries : ℕ) :
    List Method → (Method → ℕ × ℕ) → Option String →
    Option (Method × ℕ) × (Method → ℕ × ℕ) × Option String
  | [], stats, lastErr => (none, stats, lastErr)
  | m :: rest, stats, lastErr =>
    if hasHandler m then
      let stats1 := bumpAttempt m stats
      match runTries (outcome m) lastErr 0 maxRetries with
      | (some i, le) => (some (m, i + 1), bumpSuccess m stats1, le)
      | (none, le) => runPlan outcome maxRetries rest stats1 le
    else
      runPlan outcome maxRetries rest stats lastErr

/-- Terminal outcome of `_apply_to_job`: either success with the
succeeding method and `attempts_made`, or failure carrying
`methods_tried`, the last error and `total_attempts`. -/
inductive ApplyOutcome
  | success (methodTried : Method) (attemptsMade : ℕ)
  | failure (methodsTried : List Method) (lastError : Option String) (totalAttempts : ℕ)
deriving DecidableEq, Repr

/-- `_apply_to_job` on an already-built plan, returning the outcome and
the updated MethodStats. -/
def applyToJob (outcome : Method → ℕ → Option String) (maxRetries : ℕ)
    (plan : List Method) (stats : Method → ℕ × ℕ) :
    ApplyOutcome × (Method → ℕ × ℕ) :=
  match runPlan outcome maxRetries plan stats none with
  | (some (m, k), stats2, _) => (.success m k, stats2)
  | (none, stats2, le) => (.failure plan le (maxRetries * plan.length), stats2)

/-- Per-job event seen by the `auto_apply_to_jobs` loop body. -/
inductive JobStep
  | notFound
  | alreadyApplied
  | applied (success : Bool)
  | raised (err : String)
deriving DecidableEq, Repr

/-- One entry of the result list of `auto_apply_to_jobs`. -/
structure ARes where
  job_id : ℕ
  success : Bool
deriving DecidableEq, Repr

/-- The `for job_id in job_ids` loop of `auto_apply_to_jobs`: stop when
the daily cap is reached; skip missing jobs and duplicate applications;
append each apply result, incrementing `applications_today` only when
the result reports success; a raised exception appends a failure
entry. -/
def autoApplyLoop (env : ℕ → JobStep) (maxPerDay : ℕ) :
    List ℕ → ℕ → List ARes → ℕ × List ARes
  | [], today, results => (today, results)
  | j :: rest, today, results =>
    if maxPerDay ≤ today then (today, results)
    else
      match env j with
      | .notFound => autoApplyLoop env maxPerDay rest today results
      | .alreadyApplied => autoApplyLoop env maxPerDay rest today results
      | .applied s =>
        autoApplyLoop env maxPerDay rest (if s then today + 1 else today) (results ++ [⟨j, s⟩])
      | .raised _ => autoApplyLoop env maxPerDay rest today (results ++ [⟨j, false⟩])

/-- `auto_apply_to_jobs`: without a browser/HTTP session every job gets
a not-available failure entry; at the daily cap an empty result list is
returned; a missing user profile raises `ValueError`; otherwise the job
loop runs.  The returned pair is (`applications_today` after the run,
result list). -/
def autoApplyToJobs (env : ℕ → JobStep) (browserAvailable profileExists : Bool)
    (maxPerDay applicationsToday : ℕ) (jobIds : List ℕ) :
    Except String (ℕ × List ARes) :=
  if !browserAvailable then
    .ok (applicationsToday, jobIds.map (fun j => ⟨j, false⟩))
  else if maxPerDay ≤ applicationsToday then
    .ok (applicationsToday, [])
  else if !profileExists then
    .error "User profile not found"
  else
    .ok (autoApplyLoop env maxPerDay jobIds applicationsToday [])

/- ------------------------------------------------------------------
   Concrete instances used by counterexamples and witnesses
   ------------------------------------------------------------------ -/

/-- A regex engine that finds nothing (what any engine returns on the
empty job text, since every extraction pattern requires at least one
character). -/
def findallNone : String → String → List String := fun _ _ => []

/-- An embedding model returning cosine similarity 0. -/
def baseSimZero : String → String → Except String ℚ := fun _ _ => Except.ok 0

/-- A sample extracted resume. -/
def resumeSections0 : Sections :=
  ⟨"Python JavaScript React", "Software Developer Tech Corp", "Bachelor Computer Science"⟩

/-- A job posting whose free-text description is present but empty. -/
def emptyDescJob : JobData := ⟨some "", none⟩

/-- A component analysis in which only skill_match has enough samples
and a high success rate. -/
def analysisBoost : Component → ComponentData
  | .skill_match => ⟨6, 7/10⟩
  | _ => ⟨0, 0⟩

/-- The learner weights after applying the adjustment computed from
`analysisBoost` to the initial weights. -/
def adjustedWeights : Component → ℚ :=
  applyScoringAdjustments initialScoringWeights
    (calculateWeightAdjustments initialScoringWeights analysisBoost)

/-- Fresh MethodStats: no attempts, no successes on any channel. -/
def freshStats : Method → ℕ × ℕ := fun _ => (0, 0)

/-- A job with no apply locator at all. -/
def noUrlJob : AJob := ⟨"unknown", ""⟩

/-- Per-channel behaviour for the always-failing / always-succeeding
scenario: every email try succeeds, every other channel's try fails. -/
def outcomeScenC : Method → ℕ → Option String :=
  fun m _ => match m with
    | .email => none
    | _ => some "connection refused"

/-- The two-channel plan of the scenario: a failing channel then a
succeeding fallback. -/
def planScenC : List Method := [.http_form, .email]

/-- 12 applications in the window, one interview, no offers: response
rate 1/12, below the 10% bar. -/
def outcomesScenD : OutcomeCounts := ⟨12, 1, 0, 3⟩

/-- A component analysis with no data at all. -/
def analysisEmpty : Component → ComponentData := fun _ => ⟨0, 0⟩

/-- The last channel of a plan that actually has a handler (whose final
failing try supplies the reported `last_error`). -/
def lastHandler (plan : List Method) : Option Method :=
  (plan.filter (fun m => hasHandler m)).getLast?

/-- Number of successful entries in a result list. -/
def countSucc (rs : List ARes) : ℕ := (rs.filter (fun r => r.success)).length

/-- A job environment for the daily-counter witness: job 1 applies
successfully, job 2 fails, job 3 is missing, job 4 raises. -/
def envW : ℕ → JobStep :=
  fun j =>
    if j = 1 then .applied true
    else if j = 2 then .applied false
    else if j = 3 then .notFound
    else .raised "boom"

/- ------------------------------------------------------------------
   General helper lemmas
   ------------------------------------------------------------------ -/

theorem isPrefixOf_self (l : List Char) : l.isPrefixOf l = true := by
  induction l with
  | nil => rfl
  | cons c t ih => simp [List.isPrefixOf, ih]

theorem isSubList_append (pre l : List Char) : isSubList l (pre ++ l) = true := by
  induction pre with
  | nil =>
    cases l with
    | nil => rfl
    | cons c t => simp [isSubList, isPrefixOf_self]
  | cons c t ih => simp [isSubList, ih]

theorem containsSub_append_right (pre e : String) : containsSub (pre ++ e) e = true := by
  unfold containsSub
  have h : (pre ++ e).toList = pre.toList ++ e.toList := by
    simp [String.toList, String.data_append]
  rw [h]
  exact isSubList_append _ _

theorem computeSectionSimilarity_empty_right (baseSim : String → String → Except String ℚ)
    (x : String) : computeSectionSimilarity baseSim x "" = 0 := by
  have h : pyStrip "" = "" := rfl
  simp [computeSectionSimilarity, h]

theorem extractSkillsFromJob_empty (findall : String → String → List String)
    (hfind : ∀ p, findall p "" = []) : extractSkillsFromJob findall "" = "" := by
  simp only [extractSkillsFromJob, skillsPatterns, List.map_cons, List.map_nil, hfind,
    List.flatten_cons, List.flatten_nil, List.append_nil]
  decide

theorem extractExperienceFromJob_empty (findall : String → String → List String)
    (hfind : ∀ p, findall p "" = []) : extractExperienceFromJob findall "" = "" := by
  simp only [extractExperienceFromJob, expPatterns, List.map_cons, List.map_nil, hfind,
    List.flatten_cons, List.flatten_nil, List.append_nil]
  rfl

theorem extractEducationFromJob_empty (findall : String → String → List String)
    (hfind : ∀ p, findall p "" = []) : extractEducationFromJob findall "" = "" := by
  simp only [extractEducationFromJob, eduPatterns, List.map_cons, List.map_nil, hfind,
    List.flatten_cons, List.flatten_nil, List.append_nil]
  rfl

theorem calibrate_zero : calibrate 0 = 8 := by
  norm_num [calibrate, min_def]

theorem classifyScore_eight : classifyScore 8 = "Poor Fit" := by
  norm_num [classifyScore]

theorem round2_eight : round2 8 = 8 := by
  norm_num [round2, round_eq]

/-- On a job whose free text is empty, the scorer's non-error path
computes three zero section scores, boosts the zero raw score to 8,
and classifies it "Poor Fit". -/
theorem scoreCandidateOk_empty_desc (baseSim : String → String → Except String ℚ)
    (findall : String → String → List String) (hfind : ∀ p, findall p "" = [])
    (w : ScoringWeights) (rs : Sections) (job : JobData)
    (hdesc : job.description = some "") :
    scoreCandidateOk baseSim findall w rs job =
      ⟨8, "Poor Fit", ⟨0, 0, 0⟩, generateExplanation ⟨0, 0, 0⟩ "Poor Fit"⟩ := by
  have hjt : jobTextOf job = "" := by simp [jobTextOf, hdesc]
  have hsec : extractJobSections findall job = ⟨"", "", ""⟩ := by
    simp [extractJobSections, hjt, extractSkillsFromJob_empty findall hfind,
      extractExperienceFromJob_empty findall hfind, extractEducationFromJob_empty findall hfind]
  unfold scoreCandidateOk scoreCandidate scoreCandidateCore
  rw [hsec]
  simp only [computeSectionSimilarity_empty_right, zero_mul, mul_zero, add_zero]
  rw [calibrate_zero, classifyScore_eight, round2_eight]

/- ------------------------------------------------------------------
   C1 - scoring a job with an empty description
   ------------------------------------------------------------------ -/

/-- C1 (counterexample): on a concrete job whose free-text description
is empty, `score_candidate` returns section scores 0 and classification
"Poor Fit" as claimed, but the total score is 8, not 0. -/
theorem scoreCandidate_empty_description_counterexample :
    (scoreCandidateOk baseSimZero findallNone ⟨7/10, 2/10, 1/10⟩ resumeSections0 emptyDescJob).section_scores = ⟨0, 0, 0⟩ ∧
    (scoreCandidateOk baseSimZero findallNone ⟨7/10, 2/10, 1/10⟩ resumeSections0 emptyDescJob).classification = "Poor Fit" ∧
    (scoreCandidateOk baseSimZero findallNone ⟨7/10, 2/10, 1/10⟩ resumeSections0 emptyDescJob).total_score = 8 ∧
    (scoreCandidateOk baseSimZero findallNone ⟨7/10, 2/10, 1/10⟩ resumeSections0 emptyDescJob).total_score ≠ 0 := by
  rw [scoreCandidateOk_empty_desc baseSimZero findallNone (fun _ => rfl) _ _ _ rfl]
  exact ⟨rfl, rfl, rfl, by norm_num⟩

/-- C1 (amended): for every job posting whose free-text description is
empty, `score_candidate` returns all three section scores 0 and
classification "Poor Fit", and a total score of 8.0 (the 8% calibration
boost applied to the raw score 0) rather than 0. -/
theorem scoreCandidate_empty_description_amended
    (baseSim : String → String → Except String ℚ)
    (findall : String → String → List String) (hfind : ∀ p, findall p "" = [])
    (w : ScoringWeights) (rs : Sections) (job : JobData)
    (hdesc : job.description = some "") :
    (scoreCandidateOk baseSim findall w rs job).section_scores = ⟨0, 0, 0⟩ ∧
    (scoreCandidateOk baseSim findall w rs job).total_score = 8 ∧
    (scoreCandidateOk baseSim findall w rs job).classification = "Poor Fit" := by
  rw [scoreCandidateOk_empty_desc baseSim findall hfind w rs job hdesc]
  exact ⟨rfl, rfl, rfl⟩

/-- C1 (witness): the amended statement instantiated on a concrete
empty-description job. -/
theorem scoreCandidate_empty_description_witness :
    (scoreCandidateOk baseSimZero findallNone ⟨7/10, 2/10, 1/10⟩ resumeSections0 emptyDescJob).section_scores = ⟨0, 0, 0⟩ ∧
    (scoreCandidateOk baseSimZero findallNone ⟨7/10, 2/10, 1/10⟩ resumeSections0 emptyDescJob).total_score = 8 ∧
    (scoreCandidateOk baseSimZero findallNone ⟨7/10, 2/10, 1/10⟩ resumeSections0 emptyDescJob).classification = "Poor Fit" :=
  scoreCandidate_empty_description_amended baseSimZero findallNone (fun _ => rfl)
    ⟨7/10, 2/10, 1/10⟩ resumeSections0 emptyDescJob rfl

/- ------------------------------------------------------------------
   C3 - calibration is monotone, fixes 100, stays in [0,100]
   ------------------------------------------------------------------ -/

/-- C3: for raw scores r1 < r2 in [0,100], calibrated(r1) ≤
calibrated(r2); calibrated(100) = 100; and the calibrated value stays
inside [0,100]. -/
theorem calibration_monotone (r1 r2 : ℚ) (h0 : 0 ≤ r1) (h12 : r1 < r2) (h2 : r2 ≤ 100) :
    calibrate r1 ≤ calibrate r2 ∧ calibrate 100 = 100 ∧
      0 ≤ calibrate r1 ∧ calibrate r1 ≤ 100 := by
  have hfix : calibrate 100 = 100 := by norm_num [calibrate, min_def]
  refine ⟨?_, hfix, ?_, ?_⟩
  · simp only [calibrate]
    apply min_le_min le_rfl
    split_ifs <;> linarith
  · simp only [calibrate]
    apply le_min (by norm_num)
    split_ifs <;> linarith
  · simp only [calibrate]
    exact min_le_left _ _

/-- C3 (witness): the calibration properties at raw scores 3 and 50. -/
theorem calibration_monotone_witness :
    calibrate 3 ≤ calibrate 50 ∧ calibrate 100 = 100 ∧
      0 ≤ calibrate 3 ∧ calibrate 3 ≤ 100 :=
  calibration_monotone 3 50 (by norm_num) (by norm_num) (by norm_num)

/- ------------------------------------------------------------------
   C8 - error handling in score_candidate
   ------------------------------------------------------------------ -/

/-- C8: when the scoring body fails with any internal error,
`score_candidate` returns total score 0, classification "Error", the
triggering error message contained in the explanation, and still
returns a result instead of propagating the exception. -/
theorem scoring_error_handling (body : Except String ScoringResult) (e : String)
    (h : body = Except.error e) :
    (scoreCandidate body).total_score = 0 ∧
    (scoreCandidate body).classification = "Error" ∧
    containsSub (scoreCandidate body).explanation e = true ∧
    ∃ r : ScoringResult, scoreCandidate body = r := by
  subst h
  exact ⟨rfl, rfl, containsSub_append_right "Error during scoring: " e,
    errorScoringResult e, rfl⟩

/-- C8 (witness): the error contract at a concrete error message. -/
theorem scoring_error_handling_witness :
    (scoreCandidate (Except.error "model crashed")).total_score = 0 ∧
    (scoreCandidate (Except.error "model crashed")).classification = "Error" ∧
    containsSub (scoreCandidate (Except.error "model crashed")).explanation "model crashed" = true ∧
    ∃ r : ScoringResult, scoreCandidate (Except.error "model crashed") = r :=
  scoring_error_handling (Except.error "model crashed") "model crashed" rfl

/- ------------------------------------------------------------------
   C9 - tracker state machine
   ------------------------------------------------------------------ -/

/-- C9: the four terminal states have zero outgoing transitions (and
hence every transition out of them is invalid), and
`update_application_status` always performs the update while warning
about exactly the transitions that are not in the table. -/
theorem tracker_transitions :
    statusTransitions "rejected" = some [] ∧
    statusTransitions "withdrawn" = some [] ∧
    statusTransitions "offer_accepted" = some [] ∧
    statusTransitions "offer_declined" = some [] ∧
    (∀ newStatus, isValidStatusTransition "rejected" newStatus = false) ∧
    (∀ newStatus, isValidStatusTransition "withdrawn" newStatus = false) ∧
    (∀ newStatus, isValidStatusTransition "offer_accepted" newStatus = false) ∧
    (∀ newStatus, isValidStatusTransition "offer_declined" newStatus = false) ∧
    (∀ currentStatus newStatus : String,
      (updateApplicationStatus currentStatus newStatus).1 = true ∧
      ((updateApplicationStatus currentStatus newStatus).2 = true ↔
        isValidStatusTransition currentStatus newStatus = false)) := by
  refine ⟨rfl, rfl, rfl, rfl, fun n => rfl, fun n => rfl, fun n => rfl, fun n => rfl,
    fun c n => ⟨rfl, ?_⟩⟩
  simp [updateApplicationStatus]

/- ------------------------------------------------------------------
   C2 - weight normalisation
   ------------------------------------------------------------------ -/

/-- C2 (counterexample): applying the AdaptiveLearner weight adjustment
computed from `analysisBoost` (skill_match: 6 high-score samples,
success rate 0.7) to the initial learner weights yields weights summing
to 1.035, not 1.0 within the 0.01 tolerance. -/
theorem learner_adjustment_sum_counterexample :
    adjustedWeights .skill_match + adjustedWeights .experience_match +
        adjustedWeights .salary_match + adjustedWeights .company_quality = 207/200 ∧
    ¬(|(adjustedWeights .skill_match + adjustedWeights .experience_match +
        adjustedWeights .salary_match + adjustedWeights .company_quality) - 1| ≤ 1/100) := by
  have h : adjustedWeights Component.skill_match = 77/200 ∧
      adjustedWeights Component.experience_match = 25/100 ∧
      adjustedWeights Component.salary_match = 20/100 ∧
      adjustedWeights Component.company_quality = 20/100 := by
    refine ⟨?_, ?_, ?_, ?_⟩ <;>
      norm_num [adjustedWeights, applyScoringAdjustments, calculateWeightAdjustments,
        calculateWeightAdjustment, analysisBoost, initialScoringWeights,
        min_def, abs_eq_max_neg, max_def]
  rw [h.1, h.2.1, h.2.2.1, h.2.2.2]
  constructor
  · norm_num
  · rw [show (77/200 + 25/100 + 20/100 + 20/100 : ℚ) - 1 = 7/200 by norm_num]
    rw [abs_of_nonneg (by norm_num)]
    norm_num

/-- C2 (amended): at `ScoringWeights` construction the three section
weights do sum to 1.0 within the 0.01 tolerance (whenever the incoming
total is nonzero), but `_apply_scoring_adjustments` writes adjusted
learner weights through unchanged, with no renormalisation: each
adjusted component simply receives its computed value. -/
theorem weights_sum_amended (w : ScoringWeights)
    (h : w.skills + w.experience + w.education ≠ 0) :
    |(w.postInit.skills + w.postInit.experience + w.postInit.education) - 1| ≤ 1/100 ∧
    (∀ (weights : Component → ℚ) (adjustments : Component → Option ℚ) (c : Component) (v : ℚ),
      adjustments c = some v → applyScoringAdjustments weights adjustments c = v) := by
  constructor
  · simp only [ScoringWeights.postInit]
    split_ifs with hc
    · show |(w.skills / (w.skills + w.experience + w.education) +
          w.experience / (w.skills + w.experience + w.education) +
          w.education / (w.skills + w.experience + w.education)) - 1| ≤ 1/100
      rw [div_add_div_same, div_add_div_same, div_self h]
      norm_num
    · push_neg at hc
      exact hc
  · intro weights adjustments c v hv
    simp [applyScoringAdjustments, hv]

/-- C2 (witness): the construction part at the default weights. -/
theorem weights_sum_witness :
    |(((⟨7/10, 2/10, 1/10⟩ : ScoringWeights).postInit.skills +
       (⟨7/10, 2/10, 1/10⟩ : ScoringWeights).postInit.experience +
       (⟨7/10, 2/10, 1/10⟩ : ScoringWeights).postInit.education)) - 1| ≤ 1/100 ∧
    (∀ (weights : Component → ℚ) (adjustments : Component → Option ℚ) (c : Component) (v : ℚ),
      adjustments c = some v → applyScoringAdjustments weights adjustments c = v) :=
  weights_sum_amended ⟨7/10, 2/10, 1/10⟩ (by norm_num)

/- ------------------------------------------------------------------
   C6 - AdaptiveLearner weight retuning
   ------------------------------------------------------------------ -/

/-- C6: with at least 5 high-score samples, a success rate above 0.6
emits the 1.1-multiplied weight capped at 0.4 and a rate below 0.3 the
0.9-multiplied weight floored at 0.1 (whenever the change exceeds
0.02); changes of absolute size at most 0.02 are suppressed; and for a
current weight inside [0.1, 0.4] (which the initial weights are), every
emitted adjustment stays inside [0.1, 0.4]. -/
theorem weight_retune_bounds (currentWeight : ℚ) (d : ComponentData)
    (hlo : 1/10 ≤ currentWeight) (hhi : currentWeight ≤ 4/10) :
    (∀ n, calculateWeightAdjustment currentWeight d = some n → 1/10 ≤ n ∧ n ≤ 4/10) ∧
    (5 ≤ d.high_total → 3/5 < d.success_rate →
      |min (4/10) (currentWeight * (11/10)) - currentWeight| > 2/100 →
      calculateWeightAdjustment currentWeight d = some (min (4/10) (currentWeight * (11/10)))) ∧
    (5 ≤ d.high_total → d.success_rate < 3/10 →
      |max (1/10) (currentWeight * (9/10)) - currentWeight| > 2/100 →
      calculateWeightAdjustment currentWeight d = some (max (1/10) (currentWeight * (9/10)))) ∧
    (3/5 < d.success_rate →
      |min (4/10) (currentWeight * (11/10)) - currentWeight| ≤ 2/100 →
      calculateWeightAdjustment currentWeight d = none) ∧
    (d.success_rate < 3/10 →
      |max (1/10) (currentWeight * (9/10)) - currentWeight| ≤ 2/100 →
      calculateWeightAdjustment currentWeight d = none) ∧
    (∀ c, 1/10 ≤ initialScoringWeights c ∧ initialScoringWeights c ≤ 4/10) := by
  refine ⟨?_, ?_, ?_, ?_, ?_, ?_⟩
  · intro n hn
    simp only [calculateWeightAdjustment] at hn
    by_cases h1 : d.high_total < 5
    · rw [if_pos h1] at hn
      exact absurd hn (by simp)
    · rw [if_neg h1] at hn
      by_cases h2 : d.success_rate > 3/5
      · rw [if_pos h2] at hn
        by_cases h3 : |min (4/10) (currentWeight * (11/10)) - currentWeight| > 2/100
        · rw [if_pos h3] at hn
          injection hn with h
          subst h
          exact ⟨le_min (by norm_num) (by linarith), min_le_left _ _⟩
        · rw [if_neg h3] at hn
          exact absurd hn (by simp)
      · rw [if_neg h2] at hn
        by_cases h4 : d.success_rate < 3/10
        · rw [if_pos h4] at hn
          by_cases h5 : |max (1/10) (currentWeight * (9/10)) - currentWeight| > 2/100
          · rw [if_pos h5] at hn
            injection hn with h
            subst h
            exact ⟨le_max_left _ _, max_le (by norm_num) (by linarith)⟩
          · rw [if_neg h5] at hn
            exact absurd hn (by simp)
        · rw [if_neg h4] at hn
          exact absurd hn (by simp)
  · intro hht hrate hdelta
    simp only [calculateWeightAdjustment]
    rw [if_neg (by omega : ¬ d.high_total < 5), if_pos hrate, if_pos hdelta]
  · intro hht hrate hdelta
    simp only [calculateWeightAdjustment]
    rw [if_neg (by omega : ¬ d.high_total < 5),
      if_neg (by linarith : ¬ d.success_rate > 3/5), if_pos hrate, if_pos hdelta]
  · intro hrate hdelta
    simp only [calculateWeightAdjustment]
    by_cases h1 : d.high_total < 5
    · rw [if_pos h1]
    · rw [if_neg h1, if_pos hrate, if_neg (not_lt.2 hdelta)]
  · intro hrate hdelta
    simp only [calculateWeightAdjustment]
    by_cases h1 : d.high_total < 5
    · rw [if_pos h1]
    · rw [if_neg h1, if_neg (by linarith : ¬ d.success_rate > 3/5), if_pos hrate,
        if_neg (not_lt.2 hdelta)]
  · intro c
    cases c <;> constructor <;> norm_num [initialScoringWeights]

/-- C6 (witness): 6 high-score samples at success rate 0.7 boost a 0.35
weight to 0.385, inside [0.1, 0.4]. -/
theorem weight_retune_bounds_witness :
    calculateWeightAdjustment (35/100) ⟨6, 7/10⟩ = some (77/200) ∧
    (1/10 : ℚ) ≤ 77/200 ∧ (77/200 : ℚ) ≤ 4/10 := by
  have h := weight_retune_bounds (35/100) ⟨6, 7/10⟩ (by norm_num) (by norm_num)
  have heq : calculateWeightAdjustment (35/100) ⟨6, 7/10⟩ = some (77/200) := by
    norm_num [calculateWeightAdjustment, min_def, abs_eq_max_neg, max_def]
  exact ⟨heq, (h.1 _ heq).1, (h.1 _ heq).2⟩

/- ------------------------------------------------------------------
   C5 - adaptive threshold tuning
   ------------------------------------------------------------------ -/

theorem clampStep (cur v : ℚ) (h1 : 1/2 ≤ v) (h2 : v ≤ 9/10)
    (hc1 : 1/2 ≤ cur) (hc2 : cur ≤ 9/10) :
    1/2 ≤ (if |v - cur| > 1/50 then v else cur) ∧
      (if |v - cur| > 1/50 then v else cur) ≤ 9/10 := by
  split_ifs <;> constructor <;> assumption

/-- C5 (counterexample): at threshold 0.51 with 3 applications in the
window, the step-lowered value max(0.5, 0.51 - 0.05) = 0.5 is strictly
below the current threshold, yet the tuning routine leaves the
threshold unchanged at 0.51 because the 0.01 change is suppressed by
the 0.02 minimum delta - the threshold is not lowered.  The change of
0.01 is strictly inside the suppression region (last conjunct), far
from the 0.02 boundary, so double and exact arithmetic agree that the
program suppresses it. -/
theorem threshold_tuning_counterexample :
    (⟨3, 0, 0, 0⟩ : OutcomeCounts).total < 5 ∧
    tuneThreshold (51/100) ⟨3, 0, 0, 0⟩ = 51/100 ∧
    max (1/2) (51/100 - 1/20 : ℚ) < 51/100 ∧
    |max (1/2) (51/100 - 1/20 : ℚ) - 51/100| < 1/50 := by
  refine ⟨by norm_num, ?_, by norm_num [max_def], by norm_num [max_def, abs_eq_max_neg]⟩
  norm_num [tuneThreshold, thresholdSuccessRate, min_def, max_def, abs_eq_max_neg]

/-- C5 (amended): threshold retuning moves in the claimed direction in
each regime and keeps a threshold that starts in [0.5, 0.9] inside
[0.5, 0.9], but a computed change of absolute size below the 0.02
minimum delta is suppressed (the threshold is then left unchanged
rather than moved); in particular 12 applications with a response rate
below 10% raise the 0.7 threshold to 0.8 and emit the
low-response-rate insight. -/
theorem threshold_tuning_amended (cur : ℚ) (o : OutcomeCounts)
    (hlo : 1/2 ≤ cur) (hhi : cur ≤ 9/10) :
    (1/2 ≤ tuneThreshold cur o ∧ tuneThreshold cur o ≤ 9/10) ∧
    (o.total < 5 → tuneThreshold cur o ≤ cur) ∧
    (20 < o.total → cur ≤ tuneThreshold cur o) ∧
    (5 ≤ o.total → o.total ≤ 20 → thresholdSuccessRate o < 1/10 → cur ≤ tuneThreshold cur o) ∧
    (5 ≤ o.total → o.total ≤ 20 → 2/5 < thresholdSuccessRate o → tuneThreshold cur o ≤ cur) ∧
    (o.total = 12 → thresholdSuccessRate o < 1/10 →
      tuneThreshold (7/10) o = 4/5 ∧
      ∀ analysis, lowInterviewRateInsight ∈ generateUserInsights o analysis) := by
  refine ⟨?_, ?_, ?_, ?_, ?_, ?_⟩
  · simp only [tuneThreshold]
    by_cases h1 : o.total < 5
    · rw [if_pos h1]
      exact clampStep cur _ (le_max_left _ _) (max_le (by norm_num) (by linarith)) hlo hhi
    · rw [if_neg h1]
      by_cases h2 : o.total > 20
      · rw [if_pos h2]
        exact clampStep cur _ (le_min (by norm_num) (by linarith)) (min_le_left _ _) hlo hhi
      · rw [if_neg h2]
        by_cases h3 : thresholdSuccessRate o < 1/10
        · rw [if_pos h3]
          exact clampStep cur _ (le_min (by norm_num) (by linarith)) (min_le_left _ _) hlo hhi
        · rw [if_neg h3]
          by_cases h4 : thresholdSuccessRate o > 2/5
          · rw [if_pos h4]
            exact clampStep cur _ (le_max_left _ _) (max_le (by norm_num) (by linarith)) hlo hhi
          · rw [if_neg h4]
            exact clampStep cur cur hlo hhi hlo hhi
  · intro h1
    simp only [tuneThreshold]
    rw [if_pos h1]
    split_ifs with h
    · exact max_le hlo (by linarith)
    · exact le_rfl
  · intro h2
    simp only [tuneThreshold]
    rw [if_neg (by omega : ¬ o.total < 5), if_pos h2]
    split_ifs with h
    · exact le_min hhi (by linarith)
    · exact le_rfl
  · intro h5 h20 hr
    simp only [tuneThreshold]
    rw [if_neg (by omega : ¬ o.total < 5), if_neg (by omega : ¬ o.total > 20), if_pos hr]
    split_ifs with h
    · exact le_min hhi (by linarith)
    · exact le_rfl
  · intro h5 h20 hr
    simp only [tuneThreshold]
    rw [if_neg (by omega : ¬ o.total < 5), if_neg (by omega : ¬ o.total > 20),
      if_neg (by linarith : ¬ thresholdSuccessRate o < 1/10), if_pos hr]
    split_ifs with h
    · exact max_le hlo (by linarith)
    · exact le_rfl
  · intro h12 hr
    constructor
    · simp only [tuneThreshold]
      rw [if_neg (by omega : ¬ o.total < 5), if_neg (by omega : ¬ o.total > 20), if_pos hr]
      norm_num [min_def, abs_eq_max_neg, max_def]
    · intro analysis
      unfold generateUserInsights
      apply List.mem_append_left
      unfold interviewRateInsights
      rw [if_pos (by omega : o.total > 0)]
      have hint : (o.interviews : ℚ) / (o.total : ℚ) < 1/10 := by
        have hio : ((o.interviews : ℚ) + (o.offers : ℚ)) / max (o.total : ℚ) 1 < 1/10 := hr
        rw [h12] at hio ⊢
        rw [show max ((12 : ℕ) : ℚ) 1 = 12 by norm_num] at hio
        rw [div_lt_iff₀ (by norm_num)] at hio
        rw [show ((12 : ℕ) : ℚ) = 12 by norm_num]
        rw [div_lt_iff₀ (by norm_num)]
        have hof : (0 : ℚ) ≤ (o.offers : ℚ) := Nat.cast_nonneg _
        linarith
      rw [if_pos hint]
      exact List.mem_cons_self _ _

/-- C5 (witness): the scenario at 12 applications, one interview, no
offers (response rate 1/12 < 10%): threshold raised from 0.7 to 0.8 and
the low-response-rate insight emitted. -/
theorem threshold_tuning_witness :
    tuneThreshold (7/10) outcomesScenD = 4/5 ∧
    lowInterviewRateInsight ∈ generateUserInsights outcomesScenD analysisEmpty := by
  have h := threshold_tuning_amended (7/10) outcomesScenD (by norm_num) (by norm_num)
  have hr : thresholdSuccessRate outcomesScenD < 1/10 := by
    norm_num [thresholdSuccessRate, outcomesScenD, max_def]
  obtain ⟨ht, hins⟩ := h.2.2.2.2.2 rfl hr
  exact ⟨ht, hins analysisEmpty⟩

/- ------------------------------------------------------------------
   C7 - structural applicability of the selected method
   ------------------------------------------------------------------ -/

theorem foldl_best_mem (x : Method × ℚ) (xs : List (Method × ℚ)) :
    xs.foldl (fun a y => if y.2 > a.2 then y else a) x ∈ x :: xs := by
  induction xs generalizing x with
  | nil => simp
  | cons y ys ih =>
    simp only [List.foldl_cons]
    rcases List.mem_cons.1 (ih (if y.2 > x.2 then y else x)) with h1 | h2
    · rw [h1]
      split_ifs
      · exact List.mem_cons_of_mem _ (List.mem_cons_self _ _)
      · exact List.mem_cons_self _ _
    · exact List.mem_cons_of_mem _ (List.mem_cons_of_mem _ h2)

theorem bestBy_mem (l : List (Method × ℚ)) (x : Method × ℚ) (h : bestBy l = some x) : x ∈ l := by
  cases l with
  | nil => exact absurd h (by simp [bestBy])
  | cons a as =>
    simp only [bestBy, Option.some_inj] at h
    rw [← h]
    exact foldl_best_mem a as

theorem pickBest_applicable (httpSession : Bool) (job : AJob) (L : List (Method × ℚ))
    (hall : ∀ p ∈ L, isMethodApplicable httpSession job p.1 = true) :
    isMethodApplicable httpSession job (pickBest L) = true := by
  unfold pickBest
  cases hbb : bestBy L with
  | none => rfl
  | some b => exact hall b (bestBy_mem L b hbb)

theorem sourceMethod_applicable (job : AJob) (m : Method) (b : Bool)
    (hs : sourceMethod job.source = some m) : isMethodApplicable b job m = true := by
  unfold sourceMethod at hs
  split_ifs at hs with h1 h2 h3
  · injection hs with h
    subst h
    simp [isMethodApplicable, methodName, h1]
  · injection hs with h
    subst h
    simp [isMethodApplicable, methodName, h2]
  · injection hs with h
    subst h
    simp [isMethodApplicable, methodName, h3]

theorem browserSourceCandidates_applicable (stats : Method → ℕ × ℕ) (job : AJob) (b : Bool)
    (p : Method × ℚ) (hp : p ∈ browserSourceCandidates stats job) :
    isMethodApplicable b job p.1 = true := by
  unfold browserSourceCandidates at hp
  cases hsm : sourceMethod job.source with
  | none =>
    rw [hsm] at hp
    exact absurd hp (List.not_mem_nil p)
  | some m =>
    rw [hsm] at hp
    dsimp only at hp
    split_ifs at hp with h1
    · rw [List.mem_singleton] at hp
      subst hp
      exact sourceMethod_applicable job m b hsm
    · exact absurd hp (List.not_mem_nil p)

theorem browserUrlCandidates_applicable (stats : Method → ℕ × ℕ) (job : AJob)
    (p : Method × ℚ) (hp : p ∈ browserUrlCandidates stats job) :
    isMethodApplicable false job p.1 = true := by
  unfold browserUrlCandidates at hp
  split_ifs at hp with h1 h2
  · rw [List.mem_singleton] at hp
    subst hp
    simpa [isMethodApplicable] using h1
  · rw [List.mem_singleton] at hp
    subst hp
    simp [isMethodApplicable, h2]
  · exact absurd hp (List.not_mem_nil p)

theorem httpCandidates_applicable (stats : Method → ℕ × ℕ) (job : AJob)
    (hurl : job.apply_url ≠ "") (hmail : containsSub job.apply_url "mailto:" = false)
    (p : Method × ℚ) (hp : p ∈ httpCandidates stats job) :
    isMethodApplicable true job p.1 = true := by
  simp only [httpCandidates] at hp
  split_ifs at hp with h1 h2 h3 <;>
    first
      | (rw [hmail] at h1
         exact Bool.noConfusion h1)
      | (simp only [List.nil_append, List.mem_singleton] at hp
         subst hp
         simp [isMethodApplicable, hurl, hmail])
      | simp at hp

/-- C7 (counterexample): in HTTP-session mode, for a job with no apply
locator at all, `_determine_application_method` falls back to
`http_form`, a method that `_is_method_applicable` deems structurally
inapplicable for that job. -/
theorem method_selection_counterexample :
    determineApplicationMethod true freshStats noUrlJob = Method.http_form ∧
    isMethodApplicable true noUrlJob Method.http_form = false := by
  exact ⟨rfl, rfl⟩

theorem foldl_fallbacks_mem (hs : Bool) (job : AJob) (primary : Method)
    (fbs : List Method) (acc : List Method)
    (hacc : ∀ m ∈ acc, m = primary ∨ isMethodApplicable hs job m = true) :
    ∀ m ∈ fbs.foldl
        (fun acc fb =>
          if fb ≠ primary && !acc.contains fb && isMethodApplicable hs job fb
          then acc ++ [fb] else acc) acc,
      m = primary ∨ isMethodApplicable hs job m = true := by
  induction fbs generalizing acc with
  | nil => exact hacc
  | cons fb rest ih =>
    simp only [List.foldl_cons]
    apply ih
    intro m hm
    split_ifs at hm with hcond
    · rcases List.mem_append.1 hm with h1 | h2
      · exact hacc m h1
      · rw [List.mem_singleton] at h2
        subst h2
        exact Or.inr ((Bool.and_eq_true _ _).mp hcond).2
    · exact hacc m hm

/-- C7 (amended): every fallback added to the `methods_to_try` plan is
structurally applicable (the plan builder filters fallbacks through
`_is_method_applicable`), and the selected primary method is
structurally applicable in browser mode for every job and in
HTTP-session mode for every job with a non-empty non-mail apply URL;
but in HTTP-session mode with an empty (or mail-shaped) apply URL and
no platform match, the default `http_form` primary may be returned even
though it is inapplicable. -/
theorem method_selection_amended (httpSession : Bool) (stats : Method → ℕ × ℕ) (job : AJob) :
    (httpSession = false ∨
        (job.apply_url ≠ "" ∧ containsSub job.apply_url "mailto:" = false) →
      isMethodApplicable httpSession job (determineApplicationMethod httpSession stats job)
        = true) ∧
    (∀ m ∈ buildMethodsToTry httpSession stats job,
      m ≠ determineApplicationMethod httpSession stats job →
      isMethodApplicable httpSession job m = true) := by
  constructor
  · intro h
    cases httpSession with
    | false =>
      simp only [determineApplicationMethod]
      rw [if_neg (by simp)]
      apply pickBest_applicable
      intro p hp
      rcases List.mem_append.1 hp with hp1 | hp2
      · exact browserSourceCandidates_applicable stats job false p hp1
      · exact browserUrlCandidates_applicable stats job p hp2
    | true =>
      rcases h with hb | ⟨hurl, hmail⟩
      · exact absurd hb (by simp)
      · simp only [determineApplicationMethod, if_true]
        apply pickBest_applicable
        intro p hp
        exact httpCandidates_applicable stats job hurl hmail p hp
  · intro m hm hne
    simp only [buildMethodsToTry] at hm
    rcases foldl_fallbacks_mem httpSession job
        (determineApplicationMethod httpSession stats job) fallbackStrategies
        [determineApplicationMethod httpSession stats job]
        (fun x hx => Or.inl (List.mem_singleton.mp hx)) m hm with h1 | h2
    · exact absurd h1 hne
    · exact h2

/-- C7 (witness): in browser mode with no locator the selector returns
`manual`, which is applicable; and in HTTP-session mode with no locator
the plan is [http_form, manual], whose added fallback `manual` is
applicable. -/
theorem method_selection_witness :
    isMethodApplicable false noUrlJob (determineApplicationMethod false freshStats noUrlJob)
      = true ∧
    isMethodApplicable true noUrlJob Method.manual = true := by
  constructor
  · exact (method_selection_amended false freshStats noUrlJob).1 (Or.inl rfl)
  · exact (method_selection_amended true freshStats noUrlJob).2 Method.manual
      (by decide) (by decide)

/- ------------------------------------------------------------------
   C4 - ApplyOrchestrator retry and fallback behaviour
   ------------------------------------------------------------------ -/

theorem runTries_some (f : ℕ → Option String) :
    ∀ (n s : ℕ) (le : Option String) (i : ℕ) (le2 : Option String),
      runTries f le s n = (some i, le2) →
      s ≤ i ∧ i < s + n ∧ f i = none ∧
        (∀ j, s ≤ j → j < i → (f j).isSome = true) := by
  intro n
  induction n with
  | zero =>
    intro s le i le2 h
    simp [runTries] at h
  | succ k ih =>
    intro s le i le2 h
    simp only [runTries] at h
    cases hf : f s with
    | none =>
      simp [hf] at h
      obtain ⟨h1, _⟩ := h
      subst h1
      refine ⟨le_rfl, by omega, hf, ?_⟩
      intro j hj1 hj2
      exact absurd hj2 (by omega)
    | some e =>
      simp only [hf] at h
      have h3 := ih (s + 1) (some e) i le2 h
      refine ⟨by omega, by omega, h3.2.2.1, ?_⟩
      intro j hj1 hj2
      rcases Nat.eq_or_lt_of_le hj1 with heq | hlt
      · rw [← heq, hf]
        rfl
      · exact h3.2.2.2 j (by omega) hj2

theorem runTries_all_fail (f : ℕ → Option String) :
    ∀ (n s : ℕ) (le : Option String),
      (∀ j, j < n → (f (s + j)).isSome = true) →
      (runTries f le s n).1 = none ∧
      ((n = 0 ∧ (runTries f le s n).2 = le) ∨
        ∃ e, f (s + n - 1) = some e ∧ (runTries f le s n).2 = some e) := by
  intro n
  induction n with
  | zero =>
    intro s le _
    exact ⟨rfl, Or.inl ⟨rfl, rfl⟩⟩
  | succ k ih =>
    intro s le hall
    have h0 : (f s).isSome = true := by simpa using hall 0 (Nat.succ_pos k)
    obtain ⟨e0, he0⟩ := Option.isSome_iff_exists.1 h0
    have hstep : runTries f le s (k + 1) = runTries f (some e0) (s + 1) k := by
      simp only [runTries, he0]
    rw [hstep]
    have hall2 : ∀ j, j < k → (f (s + 1 + j)).isSome = true := by
      intro j hj
      have h := hall (j + 1) (by omega)
      have harith : s + (j + 1) = s + 1 + j := by omega
      rwa [harith] at h
    have hres := ih (s + 1) (some e0) hall2
    refine ⟨hres.1, ?_⟩
    rcases hres.2 with ⟨hk0, hle⟩ | ⟨e, hfe, hle⟩
    · subst hk0
      right
      refine ⟨e0, ?_, hle⟩
      have harith : s + (0 + 1) - 1 = s := by omega
      rw [harith]
      exact he0
    · right
      refine ⟨e, ?_, hle⟩
      have harith : s + 1 + k - 1 = s + (k + 1) - 1 := by omega
      rwa [harith] at hfe

theorem cons_getLast?_ne_none {α : Type} (a : α) (l : List α) : (a :: l).getLast? ≠ none := by
  induction l generalizing a with
  | nil => simp
  | cons b t ih =>
    rw [List.getLast?_cons_cons]
    exact ih b


theorem runPlan_success (outcome : Method → ℕ → Option String) (mr : ℕ) :
    ∀ (plan : List Method) (stats : Method → ℕ × ℕ) (le : Option String)
      (m : Method) (k : ℕ) (stats2 : Method → ℕ × ℕ) (le2 : Option String),
      plan.Nodup →
      runPlan outcome mr plan stats le = (some (m, k), stats2, le2) →
      m ∈ plan ∧ hasHandler m = true ∧ 1 ≤ k ∧ k ≤ mr ∧
      outcome m (k - 1) = none ∧
      (∀ j, j < k - 1 → (outcome m j).isSome = true) ∧
      stats2 m = ((stats m).1 + 1, (stats m).2 + 1) ∧
      (∀ x, x ∉ plan → stats2 x = stats x) ∧
      (∀ l1 l2, plan = l1 ++ m :: l2 →
        (∀ m2 ∈ l2, stats2 m2 = stats m2) ∧
        (∀ m1 ∈ l1, stats2 m1 =
          if hasHandler m1 then ((stats m1).1 + 1, (stats m1).2) else stats m1)) := by
  intro plan
  induction plan with
  | nil =>
    intro stats le m k stats2 le2 _ h
    simp [runPlan] at h
  | cons a rest ih =>
    intro stats le m k stats2 le2 hnd h
    have hna : a ∉ rest := (List.nodup_cons.1 hnd).1
    have hnd2 : rest.Nodup := (List.nodup_cons.1 hnd).2
    simp only [runPlan] at h
    by_cases ha : hasHandler a = true
    · rw [if_pos ha] at h
      cases hrt : runTries (outcome a) le 0 mr with
      | mk fst snd =>
        rw [hrt] at h
        cases fst with
        | some i =>
          simp only [Prod.mk.injEq, Option.some.injEq] at h
          obtain ⟨⟨hm, hk⟩, hst, hle⟩ := h
          subst hm
          subst hk
          subst hst
          subst hle
          have hts := runTries_some (outcome a) mr 0 le i snd hrt
          refine ⟨List.mem_cons_self a rest, ha, by omega, by omega, ?_, ?_, ?_, ?_, ?_⟩
          · simpa using hts.2.2.1
          · intro j hj
            exact hts.2.2.2 j (by omega) (by omega)
          · simp [bumpAttempt, bumpSuccess]
          · intro x hx
            have hxa : x ≠ a := fun hcon => hx (hcon ▸ List.mem_cons_self a rest)
            simp [bumpAttempt, bumpSuccess, hxa]
          · intro l1 l2 hdec
            cases l1 with
            | nil =>
              simp only [List.nil_append, List.cons.injEq] at hdec
              obtain ⟨-, hrest⟩ := hdec
              subst hrest
              refine ⟨?_, ?_⟩
              · intro m2 hm2
                have hm2a : m2 ≠ a := fun hcon => hna (hcon ▸ hm2)
                simp [bumpAttempt, bumpSuccess, hm2a]
              · intro m1 hm1
                exact absurd hm1 (List.not_mem_nil m1)
            | cons b l1t =>
              rw [List.cons_append] at hdec
              simp only [List.cons.injEq] at hdec
              obtain ⟨hab, hrest⟩ := hdec
              exfalso
              apply hna
              rw [hrest]
              exact List.mem_append_right l1t (List.mem_cons_self a l2)
        | none =>
          have hih := ih (bumpAttempt a stats) snd m k stats2 le2 hnd2 h
          obtain ⟨hmem, hhand, hk1, hkmr, hout, houtj, hstm, hnotin, hsplit⟩ := hih
          have hma : m ≠ a := fun hcon => hna (hcon ▸ hmem)
          have hb1 : bumpAttempt a stats m = stats m := by simp [bumpAttempt, hma]
          refine ⟨List.mem_cons_of_mem a hmem, hhand, hk1, hkmr, hout, houtj, ?_, ?_, ?_⟩
          · rw [hstm, hb1]
          · intro x hx
            have hxa : x ≠ a := fun hcon => hx (hcon ▸ List.mem_cons_self a rest)
            have hxr : x ∉ rest := fun hcon => hx (List.mem_cons_of_mem a hcon)
            rw [hnotin x hxr]
            simp [bumpAttempt, hxa]
          · intro l1 l2 hdec
            cases l1 with
            | nil =>
              simp only [List.nil_append, List.cons.injEq] at hdec
              exact absurd hdec.1.symm hma
            | cons b l1t =>
              rw [List.cons_append] at hdec
              simp only [List.cons.injEq] at hdec
              obtain ⟨hab, hrest⟩ := hdec
              subst hab
              have hsp := hsplit l1t l2 hrest
              refine ⟨?_, ?_⟩
              · intro m2 hm2
                have hm2r : m2 ∈ rest := by
                  rw [hrest]
                  exact List.mem_append_right l1t (List.mem_cons_of_mem m hm2)
                have hm2a : m2 ≠ a := fun hcon => hna (hcon ▸ hm2r)
                rw [hsp.1 m2 hm2]
                simp [bumpAttempt, hm2a]
              · intro m1 hm1
                rcases List.mem_cons.1 hm1 with h1 | h1
                · subst h1
                  rw [hnotin m1 hna, if_pos ha]
                  simp [bumpAttempt]
                · have hm1r : m1 ∈ rest := by
                    rw [hrest]
                    exact List.mem_append_left _ h1
                  have hm1a : m1 ≠ a := fun hcon => hna (hcon ▸ hm1r)
                  rw [hsp.2 m1 h1]
                  simp [bumpAttempt, hm1a]
    · rw [if_neg ha] at h
      have hih := ih stats le m k stats2 le2 hnd2 h
      obtain ⟨hmem, hhand, hk1, hkmr, hout, houtj, hstm, hnotin, hsplit⟩ := hih
      have hma : m ≠ a := fun hcon => ha (hcon ▸ hhand)
      refine ⟨List.mem_cons_of_mem a hmem, hhand, hk1, hkmr, hout, houtj, hstm, ?_, ?_⟩
      · intro x hx
        exact hnotin x (fun hcon => hx (List.mem_cons_of_mem a hcon))
      · intro l1 l2 hdec
        cases l1 with
        | nil =>
          simp only [List.nil_append, List.cons.injEq] at hdec
          exact absurd hdec.1.symm hma
        | cons b l1t =>
          rw [List.cons_append] at hdec
          simp only [List.cons.injEq] at hdec
          obtain ⟨hab, hrest⟩ := hdec
          subst hab
          have hsp := hsplit l1t l2 hrest
          refine ⟨hsp.1, ?_⟩
          intro m1 hm1
          rcases List.mem_cons.1 hm1 with h1 | h1
          · subst h1
            rw [hnotin m1 hna, if_neg ha]
          · exact hsp.2 m1 h1

theorem runPlan_fail (outcome : Method → ℕ → Option String) (mr : ℕ) :
    ∀ (plan : List Method) (stats : Method → ℕ × ℕ) (le : Option String),
      plan.Nodup →
      (∀ m ∈ plan, hasHandler m = true → ∀ j, j < mr → (outcome m j).isSome = true) →
      (runPlan outcome mr plan stats le).1 = none ∧
      (∀ x, (runPlan outcome mr plan stats le).2.1 x =
        if x ∈ plan ∧ hasHandler x = true then ((stats x).1 + 1, (stats x).2) else stats x) ∧
      (lastHandler plan = none → (runPlan outcome mr plan stats le).2.2 = le) ∧
      (∀ mL, lastHandler plan = some mL → 0 < mr →
        ∃ e, outcome mL (mr - 1) = some e ∧ (runPlan outcome mr plan stats le).2.2 = some e) := by
  intro plan
  induction plan with
  | nil =>
    intro stats le _ _
    refine ⟨rfl, ?_, fun _ => rfl, ?_⟩
    · intro x
      simp [runPlan]
    · intro mL hmL
      exact absurd hmL (by simp [lastHandler])
  | cons a rest ih =>
    intro stats le hnd hall
    have hna : a ∉ rest := (List.nodup_cons.1 hnd).1
    have hnd2 : rest.Nodup := (List.nodup_cons.1 hnd).2
    have hallR : ∀ m ∈ rest, hasHandler m = true → ∀ j, j < mr → (outcome m j).isSome = true :=
      fun m hm => hall m (List.mem_cons_of_mem a hm)
    by_cases ha : hasHandler a = true
    · have hallA : ∀ j, j < mr → ((outcome a) (0 + j)).isSome = true := by
        intro j hj
        simpa using hall a (List.mem_cons_self a rest) ha j hj
      have hrt := runTries_all_fail (outcome a) mr 0 le hallA
      have hpair : runTries (outcome a) le 0 mr =
          (none, (runTries (outcome a) le 0 mr).2) := Prod.ext hrt.1 rfl
      have hstep : runPlan outcome mr (a :: rest) stats le =
          runPlan outcome mr rest (bumpAttempt a stats) ((runTries (outcome a) le 0 mr).2) := by
        simp only [runPlan, if_pos ha]
        rw [hpair]
      have hih := ih (bumpAttempt a stats) ((runTries (outcome a) le 0 mr).2) hnd2 hallR
      refine ⟨?_, ?_, ?_, ?_⟩
      · rw [hstep]
        exact hih.1
      · intro x
        rw [hstep, hih.2.1 x]
        by_cases hx : x = a
        · subst hx
          rw [if_neg (fun hcon => hna hcon.1), if_pos ⟨List.mem_cons_self x rest, ha⟩]
          simp [bumpAttempt]
        · simp [bumpAttempt, hx, List.mem_cons]
      · intro hLH
        exfalso
        unfold lastHandler at hLH
        rw [List.filter_cons_of_pos ha] at hLH
        exact cons_getLast?_ne_none a _ hLH
      · intro mL hmL hmr
        unfold lastHandler at hmL
        rw [List.filter_cons_of_pos ha] at hmL
        cases hfr : rest.filter (fun m => hasHandler m) with
        | nil =>
          rw [hfr] at hmL
          simp only [List.getLast?_singleton, Option.some_inj] at hmL
          subst hmL
          rcases hrt.2 with ⟨hmr0, _⟩ | ⟨e, hfe, hle⟩
          · omega
          · refine ⟨e, by simpa using hfe, ?_⟩
            rw [hstep]
            have hnoneR : lastHandler rest = none := by
              unfold lastHandler
              rw [hfr]
              rfl
            rw [hih.2.2.1 hnoneR]
            exact hle
        | cons b bs =>
          rw [hfr] at hmL
          rw [List.getLast?_cons_cons] at hmL
          have hLH2 : lastHandler rest = some mL := by
            unfold lastHandler
            rw [hfr]
            exact hmL
          obtain ⟨e, hfe, hle⟩ := hih.2.2.2 mL hLH2 hmr
          refine ⟨e, hfe, ?_⟩
          rw [hstep]
          exact hle
    · have hstep : runPlan outcome mr (a :: rest) stats le =
          runPlan outcome mr rest stats le := by
        simp only [runPlan, if_neg ha]
      have hih := ih stats le hnd2 hallR
      refine ⟨?_, ?_, ?_, ?_⟩
      · rw [hstep]
        exact hih.1
      · intro x
        rw [hstep, hih.2.1 x]
        by_cases hx : x = a
        · subst hx
          rw [if_neg (fun hcon => ha hcon.2), if_neg (fun hcon => ha hcon.2)]
        · simp [hx, List.mem_cons]
      · intro hLH
        rw [hstep]
        apply hih.2.2.1
        unfold lastHandler at hLH ⊢
        rwa [List.filter_cons_of_neg (by simpa using ha)] at hLH
      · intro mL hmL hmr
        rw [hstep]
        refine hih.2.2.2 mL ?_ hmr
        unfold lastHandler at hmL ⊢
        rwa [List.filter_cons_of_neg (by simpa using ha)] at hmL

theorem nodup_append_singleton {α : Type} (l : List α) (x : α)
    (h : l.Nodup) (hx : x ∉ l) : (l ++ [x]).Nodup := by
  rw [List.nodup_append]
  refine ⟨h, List.nodup_singleton x, ?_⟩
  intro y hy hy2
  rw [List.mem_singleton] at hy2
  subst hy2
  exact hx hy

theorem foldl_plan_nodup (hs : Bool) (job : AJob) (p : Method) :
    ∀ (fbs acc : List Method), acc.Nodup →
      (fbs.foldl (fun acc fb =>
        if fb ≠ p && !acc.contains fb && isMethodApplicable hs job fb
        then acc ++ [fb] else acc) acc).Nodup := by
  intro fbs
  induction fbs with
  | nil =>
    intro acc h
    exact h
  | cons f fs ih =>
    intro acc h
    simp only [List.foldl_cons]
    apply ih
    by_cases hc : (decide (f ≠ p) && !acc.contains f && isMethodApplicable hs job f) = true
    · rw [if_pos hc]
      have hf : f ∉ acc := by
        have h2 := hc
        simp only [Bool.and_eq_true, Bool.not_eq_true'] at h2
        have h3 : acc.contains f = false := h2.1.2
        simpa using h3
      exact nodup_append_singleton acc f h hf
    · rw [if_neg hc]
      exact h

theorem buildMethodsToTry_nodup (hs : Bool) (stats : Method → ℕ × ℕ) (job : AJob) :
    (buildMethodsToTry hs stats job).Nodup := by
  unfold buildMethodsToTry
  exact foldl_plan_nodup hs job (determineApplicationMethod hs stats job)
    fallbackStrategies [determineApplicationMethod hs stats job]
    (List.nodup_singleton _)

/-- C4: over any duplicate-free plan (and the built `methods_to_try`
plans are duplicate-free), `_apply_to_job` tries each channel in order
with at most `max_retries` tries per channel; on the first successful
try it returns immediately - the succeeding channel's stats gain one
attempt and one success, channels after it are untouched, and channels
before it gained exactly one failed attempt; when every channel is
exhausted it returns a failure carrying the plan, the last error and the
total attempt budget, with every attempted channel's stats gaining one
attempt and no success. -/
theorem applyOrchestrator_retry_fallback (outcome : Method → ℕ → Option String) (mr : ℕ)
    (plan : List Method) (stats : Method → ℕ × ℕ) (hnd : plan.Nodup) :
    (∀ m k stats2, applyToJob outcome mr plan stats = (ApplyOutcome.success m k, stats2) →
      m ∈ plan ∧ 1 ≤ k ∧ k ≤ mr ∧ outcome m (k - 1) = none ∧
      (∀ j, j < k - 1 → (outcome m j).isSome = true) ∧
      stats2 m = ((stats m).1 + 1, (stats m).2 + 1) ∧
      (∀ l1 l2, plan = l1 ++ m :: l2 →
        (∀ m2 ∈ l2, stats2 m2 = stats m2) ∧
        (∀ m1 ∈ l1, stats2 m1 =
          if hasHandler m1 then ((stats m1).1 + 1, (stats m1).2) else stats m1))) ∧
    ((∀ m ∈ plan, hasHandler m = true → ∀ j, j < mr → (outcome m j).isSome = true) →
      ∃ stats2 le,
        applyToJob outcome mr plan stats =
          (ApplyOutcome.failure plan le (mr * plan.length), stats2) ∧
        (∀ x, stats2 x =
          if x ∈ plan ∧ hasHandler x = true then ((stats x).1 + 1, (stats x).2) else stats x) ∧
        (∀ mL, lastHandler plan = some mL → 0 < mr →
          ∃ e, outcome mL (mr - 1) = some e ∧ le = some e)) ∧
    (∀ (hs : Bool) (st : Method → ℕ × ℕ) (job : AJob), (buildMethodsToTry hs st job).Nodup) := by
  refine ⟨?_, ?_, fun hs st job => buildMethodsToTry_nodup hs st job⟩
  · intro m k stats2 h
    unfold applyToJob at h
    cases hrp : runPlan outcome mr plan stats none with
    | mk fst rest2 =>
      obtain ⟨stats2', le2⟩ := rest2
      rw [hrp] at h
      cases fst with
      | none => simp at h
      | some q =>
        obtain ⟨m', k'⟩ := q
        simp only [Prod.mk.injEq, ApplyOutcome.success.injEq] at h
        obtain ⟨⟨hm, hk⟩, hst⟩ := h
        subst hm
        subst hk
        subst hst
        have hs := runPlan_success outcome mr plan stats none _ _ _ _ hnd hrp
        exact ⟨hs.1, hs.2.2.1, hs.2.2.2.1, hs.2.2.2.2.1, hs.2.2.2.2.2.1,
          hs.2.2.2.2.2.2.1, hs.2.2.2.2.2.2.2.2⟩
  · intro hall
    have hf := runPlan_fail outcome mr plan stats none hnd hall
    unfold applyToJob
    cases hrp : runPlan outcome mr plan stats none with
    | mk fst rest2 =>
      obtain ⟨stats2, le2⟩ := rest2
      rw [hrp] at hf
      cases fst with
      | some q => exact absurd hf.1 (by simp)
      | none =>
        refine ⟨stats2, le2, rfl, ?_, ?_⟩
        · intro x
          exact hf.2.1 x
        · intro mL hmL hmr
          obtain ⟨e, he1, he2⟩ := hf.2.2.2 mL hmL hmr
          exact ⟨e, he1, he2⟩

/-- C4 (witness): scenario C - an always-failing channel followed by an
always-succeeding fallback yields success via the fallback on its first
try, with stats (1 attempt, 0 successes) on the failing channel and
(1 attempt, 1 success) on the succeeding one. -/
theorem applyOrchestrator_retry_fallback_witness :
    ∃ stats2, applyToJob outcomeScenC 3 planScenC freshStats = (.success .email 1, stats2) ∧
      stats2 .email = (1, 1) ∧ stats2 .http_form = (1, 0) := by
  have h := applyOrchestrator_retry_fallback outcomeScenC 3 planScenC freshStats (by decide)
  have h1 : (applyToJob outcomeScenC 3 planScenC freshStats).1 = .success .email 1 := by decide
  have heq : applyToJob outcomeScenC 3 planScenC freshStats =
      (.success .email 1, (applyToJob outcomeScenC 3 planScenC freshStats).2) := by
    rw [← h1]
  have hs := h.1 .email 1 _ heq
  refine ⟨(applyToJob outcomeScenC 3 planScenC freshStats).2, heq, ?_, ?_⟩
  · rw [hs.2.2.2.2.2.1]
    rfl
  · have hsplit := hs.2.2.2.2.2.2 [.http_form] [] rfl
    rw [hsplit.2 .http_form (List.mem_cons_self _ _)]
    rfl

/- ------------------------------------------------------------------
   C10 - the daily application counter
   ------------------------------------------------------------------ -/

theorem countSucc_append_false (r : List ARes) (j : ℕ) :
    countSucc (r ++ [⟨j, false⟩]) = countSucc r := by
  simp [countSucc, List.filter_append]

theorem countSucc_append_true (r : List ARes) (j : ℕ) :
    countSucc (r ++ [⟨j, true⟩]) = countSucc r + 1 := by
  simp [countSucc, List.filter_append]

theorem countSucc_map_false (ids : List ℕ) :
    countSucc (ids.map (fun j => (⟨j, false⟩ : ARes))) = 0 := by
  induction ids with
  | nil => rfl
  | cons j rest ih =>
    simp only [List.map_cons]
    simp [countSucc]

theorem autoApplyLoop_count (env : ℕ → JobStep) (cap : ℕ) :
    ∀ (ids : List ℕ) (today : ℕ) (results : List ARes),
      (autoApplyLoop env cap ids today results).1 + countSucc results =
        today + countSucc (autoApplyLoop env cap ids today results).2 := by
  intro ids
  induction ids with
  | nil =>
    intro t r
    simp [autoApplyLoop]
  | cons j rest ih =>
    intro t r
    simp only [autoApplyLoop]
    by_cases hc : cap ≤ t
    · rw [if_pos hc]
    · rw [if_neg hc]
      cases henv : env j with
      | notFound => exact ih t r
      | alreadyApplied => exact ih t r
      | applied s =>
        cases s
        · have h := ih t (r ++ [⟨j, false⟩])
          rw [countSucc_append_false] at h
          show (autoApplyLoop env cap rest t (r ++ [⟨j, false⟩])).1 + countSucc r =
            t + countSucc (autoApplyLoop env cap rest t (r ++ [⟨j, false⟩])).2
          exact h
        · have h := ih (t + 1) (r ++ [⟨j, true⟩])
          rw [countSucc_append_true] at h
          show (autoApplyLoop env cap rest (t + 1) (r ++ [⟨j, true⟩])).1 + countSucc r =
            t + countSucc (autoApplyLoop env cap rest (t + 1) (r ++ [⟨j, true⟩])).2
          omega
      | raised e =>
        have h := ih t (r ++ [⟨j, false⟩])
        rw [countSucc_append_false] at h
        exact h

theorem autoApplyLoop_le (env : ℕ → JobStep) (cap : ℕ) :
    ∀ (ids : List ℕ) (today : ℕ) (results : List ARes),
      today ≤ cap → (autoApplyLoop env cap ids today results).1 ≤ cap := by
  intro ids
  induction ids with
  | nil =>
    intro t r h
    exact h
  | cons j rest ih =>
    intro t r h
    simp only [autoApplyLoop]
    by_cases hc : cap ≤ t
    · rw [if_pos hc]
      exact h
    · rw [if_neg hc]
      cases henv : env j with
      | notFound => exact ih t r h
      | alreadyApplied => exact ih t r h
      | applied s =>
        cases s
        · exact ih t _ h
        · exact ih (t + 1) _ (by omega)
      | raised e => exact ih t _ h

/-- C10: `applications_today` after a run of `auto_apply_to_jobs` equals
its value before plus the number of successful applications in the
returned results (failed or raising attempts never consume the daily
cap), and the counter never exceeds the cap it started under. -/
theorem autoApply_daily_counter (env : ℕ → JobStep) (browserAvailable profileExists : Bool)
    (cap today : ℕ) (jobIds : List ℕ) (today2 : ℕ) (results : List ARes)
    (h : autoApplyToJobs env browserAvailable profileExists cap today jobIds =
      Except.ok (today2, results)) :
    today2 = today + countSucc results ∧ today2 ≤ max today cap := by
  unfold autoApplyToJobs at h
  by_cases hb : browserAvailable = true
  · rw [hb] at h
    simp only [Bool.not_true, Bool.false_eq_true, if_false] at h
    by_cases hcap : cap ≤ today
    · rw [if_pos hcap] at h
      simp only [Except.ok.injEq, Prod.mk.injEq] at h
      obtain ⟨h1, h2⟩ := h
      subst h1
      subst h2
      exact ⟨by simp [countSucc], le_max_left _ _⟩
    · rw [if_neg hcap] at h
      by_cases hp : profileExists = true
      · rw [hp] at h
        simp only [Bool.not_true, Bool.false_eq_true, if_false, Except.ok.injEq] at h
        have hcount := autoApplyLoop_count env cap jobIds today []
        rw [h] at hcount
        have hle := autoApplyLoop_le env cap jobIds today [] (by omega)
        rw [h] at hle
        constructor
        · simpa [countSucc] using hcount
        · exact le_trans hle (le_max_right _ _)
      · have hp2 : profileExists = false := by
          revert hp
          cases profileExists <;> simp
        rw [hp2] at h
        simp at h
  · have hb2 : browserAvailable = false := by
      revert hb
      cases browserAvailable <;> simp
    rw [hb2] at h
    simp only [Bool.not_false, if_true, Except.ok.injEq, Prod.mk.injEq] at h
    obtain ⟨h1, h2⟩ := h
    subst h1
    subst h2
    refine ⟨?_, le_max_left _ _⟩
    rw [countSucc_map_false]
    omega

/-- C10 (witness): one successful, one failed, one missing and one
raising job starting from one application already made: the counter
ends at 2 = 1 + (number of successes). -/
theorem autoApply_daily_counter_witness :
    (2 : ℕ) = 1 + countSucc [⟨1, true⟩, ⟨2, false⟩, ⟨4, false⟩] ∧ (2 : ℕ) ≤ max 1 10 :=
  autoApply_daily_counter envW true true 10 1 [1, 2, 3, 4] 2
    [⟨1, true⟩, ⟨2, false⟩, ⟨4, false⟩] rfl
